import Mathlib

/-!
Verification development for the `node-routeros-mod` RouterOS API client.

The wire-protocol engine is embedded shallowly:

* bytes are natural numbers `0..255`, byte strings are `List Nat`
  (payloads are kept as raw Windows-1252 code units; the per-byte decode
  applied by `iconv.decode(_, win1252)` is a fixed per-byte map, so word
  equality on byte lists corresponds to word equality on decoded strings);
* JavaScript numbers appearing in the length codec are modelled as `Int`,
  with the 32-bit wrap-around of the `<<` operator made explicit
  (`toInt32`, `jsShl8`) and the `NaN` arising from an out-of-range
  `Buffer` read modelled as `none : Option Int`
  (`NaN > 0`, `NaN === 0`, `NaN === 1` are all false, which is exactly
  how `none` is treated at every use site below);
* the mutable `Receiver` object is a record `Rcv` threaded through the
  functions, with ghost trace fields (`pushed`, `delivered`, `fatalEmits`)
  recording the observable events (sentence-pipe pushes, tag-callback
  invocations, `socket.emit('fatal')`);
* the `throw new RosException('UNREGISTEREDTAG')` in `sendTagData` is
  modelled by returning `some ()` in an `Option Unit` error component;
  state mutations already performed stay in force (as for a real thrown
  exception) and all remaining statements of the caller are skipped.
-/

/-- JavaScript `ToInt32`: reduce an integer modulo `2^32` into
`[-2^31, 2^31)`. -/
def toInt32 (n : Int) : Int :=
  let m := n % 4294967296
  if m < 2147483648 then m else m - 4294967296

/-- JavaScript `x << 8` as used in `Receiver.decodeLength`: both the
argument and the result are wrapped to signed 32-bit. -/
def jsShl8 (x : Int) : Int := toInt32 (toInt32 x * 256)

/--
`Receiver.decodeLength` (src/dist/connector/Receiver.js, lines 272-304).

Returns `(idx, len)` where `idx` is the number of prefix bytes consumed
and `len` is the decoded length.  The source reads `data[idx++]` without
a bounds check; a read past the end of the buffer yields `undefined`, and
any arithmetic involving it yields `NaN`, modelled here by `none`.
`idx` is incremented for every read whether or not it was in range,
exactly as in the source.
-/
def decodeLength (data : List Nat) : Nat × Option Int :=
  match data[0]? with
  | none => (1, none)
  | some b =>
    if b &&& 128 ≠ 0 then
      if b &&& 192 = 128 then
        (2, match (data[1]? : Option Nat) with
            | some b1 => some (jsShl8 ((b &&& 63 : Nat) : Int) + (b1 : Int))
            | none => none)
      else if b &&& 224 = 192 then
        (3, match (data[1]? : Option Nat), (data[2]? : Option Nat) with
            | some b1, some b2 =>
                some (jsShl8 (jsShl8 ((b &&& 31 : Nat) : Int) + (b1 : Int))
                  + (b2 : Int))
            | _, _ => none)
      else if b &&& 240 = 224 then
        (4, match (data[1]? : Option Nat), (data[2]? : Option Nat), (data[3]? : Option Nat) with
            | some b1, some b2, some b3 =>
                some (jsShl8 (jsShl8 (jsShl8 ((b &&& 15 : Nat) : Int)
                  + (b1 : Int)) + (b2 : Int)) + (b3 : Int))
            | _, _, _ => none)
      else
        (5, match (data[1]? : Option Nat), (data[2]? : Option Nat), (data[3]? : Option Nat), (data[4]? : Option Nat) with
            | some b1, some b2, some b3, some b4 =>
                some (jsShl8 (jsShl8 (jsShl8 ((b1 : Int)) + (b2 : Int))
                  + (b3 : Int)) + (b4 : Int))
            | _, _, _, _ => none)
    else
      (1, some (b : Int))

/--
Modelled from the spec: the length encoder lives in the Transmitter
(`Transmitter.js`), which is not included under src/; §4.1 of the spec
gives the five prefix forms and states that the encoder picks the
shortest one.  This is the shortest-form encoder of that table.
-/
def encodeLength (L : Nat) : List Nat :=
  if L < 128 then [L]
  else if L < 16384 then [128 + L / 256, L % 256]
  else if L < 2097152 then [192 + L / 65536, (L / 256) % 256, L % 256]
  else if L < 268435456 then
    [224 + L / 16777216, (L / 65536) % 256, (L / 256) % 256, L % 256]
  else
    [240, (L / 16777216) % 256, (L / 65536) % 256, (L / 256) % 256, L % 256]

/-- JavaScript truthiness of the `currentTag` field: `null` (`none`) and
the empty string (`some []`) are falsy, a non-empty string is truthy. -/
def truthy : Option (List Nat) → Bool
  | none => false
  | some s => !s.isEmpty

/-- The bytes of the string `.tag=` (the regex `/^\.tag=/`). -/
def tagMark : List Nat := [46, 116, 97, 103, 61]

/-- The bytes of the string `!fatal`. -/
def bangFatal : List Nat := [33, 102, 97, 116, 97, 108]

/-- `pat` occurs at the start of `s` (used for the anchored regexes of
`processSentence`). -/
def hasLead (pat s : List Nat) : Bool := decide (s.take pat.length = pat)

/--
The state of a `Receiver` (src/dist/connector/Receiver.js).  The JS
fields map one to one; `tags` is the `Map` from tag name to reader, with
the callback abstracted to an opaque identifier (`Nat`).  `pushed`,
`delivered` and `fatalEmits` are ghost trace fields recording every
`sentencePipe.push`, every tag-callback invocation, and every
`socket.emit('fatal')`.
-/
structure Rcv where
  tags : List (List Nat × Nat)
  dataLength : Option Int
  sentencePipe : List (List Nat × Bool)
  processingSentencePipe : Bool
  currentLine : List Nat
  currentReply : Option (List Nat)
  currentTag : Option (List Nat)
  currentPacket : List (List Nat)
  lengthDescriptorSegment : Option (List Nat)
  pushed : List (List Nat × Bool)
  delivered : List (List Nat × List (List Nat))
  fatalEmits : Nat
deriving DecidableEq, Repr

/-- The freshly constructed `Receiver`: `dataLength = 0`, empty strings
(`some []` models the JS empty string, `none` models `null`). -/
def initRcv : Rcv :=
  { tags := [], dataLength := some 0, sentencePipe := [],
    processingSentencePipe := false, currentLine := [],
    currentReply := some [], currentTag := some [], currentPacket := [],
    lengthDescriptorSegment := none, pushed := [], delivered := [],
    fatalEmits := 0 }

/-- `Map.prototype.set` on the tag map: replace the entry in place when
the key is present, append otherwise. -/
def mapSet (m : List (List Nat × Nat)) (k : List Nat) (v : Nat) :
    List (List Nat × Nat) :=
  if m.any (fun e => e.1 = k) then
    m.map (fun e => if e.1 = k then (k, v) else e)
  else m ++ [(k, v)]

/-- `Receiver.read` (lines 68-74): register `callback` for `tag` via
`Map.set` — an existing subscription for the same tag is replaced. -/
def Rcv.read (st : Rcv) (t : List Nat) (cb : Nat) : Rcv :=
  { st with tags := mapSet st.tags t cb }

/-- `Receiver.stop` (lines 83-86): `Map.delete` of the tag. -/
def Rcv.stop (st : Rcv) (t : List Nat) : Rcv :=
  { st with tags := st.tags.filter (fun e => ¬ e.1 = t) }

/-- `Receiver.cleanUp` (lines 259-263). -/
def cleanUp (st : Rcv) : Rcv :=
  { st with currentPacket := [], currentTag := none, currentReply := none }

/--
`Receiver.sendTagData` (lines 244-254).  If the tag is registered, its
callback receives `currentPacket` (recorded in the `delivered` trace) and
`cleanUp` runs; otherwise `RosException('UNREGISTEREDTAG')` is thrown —
modelled by the `some ()` error — and, crucially, `cleanUp` is *not*
reached.
-/
def sendTagData (st : Rcv) (t : List Nat) : Rcv × Option Unit :=
  if st.tags.any (fun e => e.1 = t) then
    (cleanUp { st with delivered := st.delivered ++ [(t, st.currentPacket)] }, none)
  else
    (st, some ())

/--
Lines 204-217 of `processSentence`: classify the shifted line as a
`.tag=` word, a reply word (leading `!`, flushing the previous reply to
the current tag first) or a plain word.  A `some ()` error is the thrown
`UNREGISTEREDTAG` exception propagating.
-/
def processLine (line : List Nat × Bool) (st1 : Rcv) : Rcv × Option Unit :=
  if hasLead tagMark line.1 then
    ({ st1 with currentTag := some (line.1.drop 5) }, none)
  else if decide (line.1.head? = some 33) then
    match (if truthy st1.currentTag
           then sendTagData st1 (st1.currentTag.getD [])
           else (st1, none)) with
    | (st2, some u) => (st2, some u)
    | (st2, none) =>
        ({ st2 with currentPacket := st2.currentPacket ++ [line.1],
                    currentReply := some line.1 }, none)
  else
    ({ st1 with currentPacket := st1.currentPacket ++ [line.1] }, none)

/-- Lines 218-228 of `processSentence`: the no-more-sentences epilogue.
A throw from `sendTagData` skips the `processingSentencePipe = false`. -/
def processEnd (line : List Nat × Bool) (st2 : Rcv) : Rcv × Option Unit :=
  if !line.2 && truthy st2.currentTag then
    match sendTagData st2 (st2.currentTag.getD []) with
    | (st3, some u) => (st3, some u)
    | (st3, none) => ({ st3 with processingSentencePipe := false }, none)
  else
    ({ st2 with processingSentencePipe := false }, none)

def processInner : Nat → Rcv → Rcv × Option Unit
  | 0, st => (st, none)
  | fuel + 1, st =>
    match st.sentencePipe with
    | [] => ({ st with processingSentencePipe := false }, none)
    | line :: rest =>
      let st1 := { st with sentencePipe := rest }
      if !line.2 && decide (st1.currentReply = some bangFatal) then
        ({ st1 with fatalEmits := st1.fatalEmits + 1 }, none)
      else
        match processLine line st1 with
        | (st2, some u) => (st2, some u)
        | (st2, none) =>
          if st2.sentencePipe.isEmpty && decide (st2.dataLength = some 0) then
            processEnd line st2
          else
            processInner fuel st2

/-- `Receiver.processSentence` (lines 192-239): a no-op while
`processingSentencePipe` is set, otherwise runs the `process` loop. -/
def processSentence (st : Rcv) : Rcv × Option Unit :=
  if st.processingSentencePipe then (st, none)
  else processInner (st.sentencePipe.length + 2)
        { st with processingSentencePipe := true }

/--
The `while (data.length > 0)` loop of `Receiver.processRawData`
(lines 103-182), with explicit fuel; the loop consumes at least one byte
before each iteration, so fuel `data.length + 1` is never exhausted.

Branch structure, exactly as in the source:
* `dataLength > 0` and `data.length <= dataLength` (lines 109-127):
  absorb the chunk into `currentLine`; on completion push the line and
  run `processSentence` (a thrown exception skips the `currentLine = ''`
  that follows it); then break.
* `dataLength > 0` and `data.length > dataLength` (lines 130-166):
  complete the word, decode the next length from the remainder, store the
  remainder in `lengthDescriptorSegment` when the announced prefix size
  exceeds it, apply the singleton-`0x00`-buffer special case, push and
  process, continue the loop.
* otherwise (lines 170-181, also taken when `dataLength` is `NaN` or
  negative, since `NaN > 0` and `d > 0` are then false): decode a length
  at the start of the buffer — with no `lengthDescriptorSegment`
  fallback — apply the special case, continue the loop.
-/
def processLoop : Nat → Rcv → List Nat → Rcv × Option Unit
  | _, st, [] => (st, none)
  | 0, st, _ :: _ => (st, none)
  | fuel + 1, st, b :: tl =>
    let data := b :: tl
    match st.dataLength with
    | some d =>
      if 0 < d then
        if (data.length : Int) ≤ d then
          let st1 := { st with dataLength := some (d - data.length),
                               currentLine := st.currentLine ++ data }
          if d - data.length = 0 then
            let entry := (st1.currentLine, decide (data.length ≠ 0))
            let st2 := { st1 with sentencePipe := st1.sentencePipe ++ [entry],
                                  pushed := st1.pushed ++ [entry] }
            match processSentence st2 with
            | (st3, some u) => (st3, some u)
            | (st3, none) => ({ st3 with currentLine := [] }, none)
          else
            (st1, none)
        else
          let word := st.currentLine ++ data.take d.toNat
          let rest := data.drop d.toNat
          let dl := decodeLength rest
          let st1 := { st with currentLine := [],
                               lengthDescriptorSegment :=
                                 if rest.length < dl.1 then some rest
                                 else st.lengthDescriptorSegment }
          let rest2 := rest.drop dl.1
          if decide (dl.2 = some 1) && decide (rest2 = [0]) then
            let st2 := { st1 with dataLength := some 0 }
            let entry := (word, false)
            let st3 := { st2 with sentencePipe := st2.sentencePipe ++ [entry],
                                  pushed := st2.pushed ++ [entry] }
            processSentence st3
          else
            let st2 := { st1 with dataLength := dl.2 }
            let entry := (word, decide (rest2.length ≠ 0))
            let st3 := { st2 with sentencePipe := st2.sentencePipe ++ [entry],
                                  pushed := st2.pushed ++ [entry] }
            match processSentence st3 with
            | (st4, some u) => (st4, some u)
            | (st4, none) => processLoop fuel st4 rest2
      else
        let dl := decodeLength data
        let rest2 := data.drop dl.1
        if decide (dl.2 = some 1) && decide (rest2 = [0]) then
          ({ st with dataLength := some 0 }, none)
        else
          processLoop fuel { st with dataLength := dl.2 } rest2
    | none =>
        let dl := decodeLength data
        let rest2 := data.drop dl.1
        if decide (dl.2 = some 1) && decide (rest2 = [0]) then
          ({ st with dataLength := some 0 }, none)
        else
          processLoop fuel { st with dataLength := dl.2 } rest2

/--
`Receiver.processRawData` (lines 97-183): prepend a buffered partial
length prefix, if any, then run the loop.
-/
def processRawData (st : Rcv) (chunk : List Nat) : Rcv × Option Unit :=
  match st.lengthDescriptorSegment with
  | some s =>
      processLoop ((s ++ chunk).length + 1)
        { st with lengthDescriptorSegment := none } (s ++ chunk)
  | none => processLoop (chunk.length + 1) st chunk

/-- Feed a sequence of socket `data` events to the Receiver.  A thrown
exception escapes the socket handler, so processing stops there. -/
def feed : Rcv → List (List Nat) → Rcv × Option Unit
  | st, [] => (st, none)
  | st, c :: cs =>
    match processRawData st c with
    | (st1, none) => feed st1 cs
    | (st1, some u) => (st1, some u)

/-- A word on the wire: length-prefixed payload (the encoder is the
spec-modelled `encodeLength`, §4.2). -/
def encodeWord (w : List Nat) : List Nat := encodeLength w.length ++ w

/-- The byte stream for the sentence `ws`: the concatenation of the word
encodings plus the zero-length terminator. -/
def streamOf (ws : List (List Nat)) : List Nat :=
  (ws.map encodeWord).flatten ++ encodeLength 0

/--
Reference byte-at-a-time framing machine: state is the number of payload
bytes still expected and the accumulated current word; it returns the
words completed, the final expected count and the final accumulator.
Segmentation-independent by construction (it is a fold over single
bytes); the simulation lemma `processLoop_sim` below relates it to the
source's chunk loop on hack-free inputs.
-/
def runB : List Nat → Nat → List Nat → List (List Nat) × Nat × List Nat
  | [], n, cl => ([], n, cl)
  | b :: rest, n, cl =>
    if n = 0 then runB rest b cl
    else if n = 1 then
      let r := runB rest 0 []
      ((cl ++ [b]) :: r.1, r.2)
    else runB rest (n - 1) (cl ++ [b])

/--
Chunk-local well-formedness: starting `n` bytes into a payload, every
length prefix inside the chunk is a single byte (value at most 127) and
the singleton-`0x00` special case of the source never fires inside this
chunk (no prefix byte `1` followed by exactly the chunk-final byte `0`).
-/
def goodChunk : List Nat → Nat → Bool
  | [], _ => true
  | b :: rest, 0 =>
      decide (b ≤ 127) && !(decide (b = 1) && decide (rest = [0])) &&
        goodChunk rest b
  | _ :: rest, n + 1 => goodChunk rest n

/--
Stream-global well-formedness: like `goodChunk` but the special-case
exclusion is stated against the stream itself (no word equal to the
single byte `0x00`), independently of chunk boundaries.
-/
def goodStream : List Nat → Nat → Bool
  | [], _ => true
  | b :: rest, 0 =>
      decide (b ≤ 127) && !(decide (b = 1) && decide (rest.head? = some 0)) &&
        goodStream rest b
  | _ :: rest, n + 1 => goodStream rest n

/-!  ## Connector (src/unnamed/part_001, `Connector` class)  -/

/-- Events a Connector emits (`error`, `timeout`, `close`, `connected`). -/
inductive CEvent
  | errorEv
  | timeoutEv
  | closeEv
  | connectedEv
deriving DecidableEq, Repr

/--
The Connector's observable state: its status flags, whether
`socket.destroy()` and `removeAllListeners()` have run, its Receiver
(whose tag map holds the live subscriptions), and the ghost trace of
emitted events.
-/
structure Conn where
  connected : Bool
  connecting : Bool
  closing : Bool
  socketDestroyed : Bool
  listenersRemoved : Bool
  rcv : Rcv
  events : List CEvent
deriving DecidableEq, Repr

/-- `Connector.destroy` (part_001 lines 138-141): destroy the socket and
remove the Connector's own listeners. -/
def Conn.destroy (c : Conn) : Conn :=
  { c with socketDestroyed := true, listenersRemoved := true }

/-- `Connector.onError` (part_001 lines 175-180): wrap the error in a
`RosException`, emit `error`, destroy the socket.  Nothing else. -/
def Conn.onError (c : Conn) : Conn :=
  Conn.destroy { c with events := c.events ++ [CEvent.errorEv] }

/-- `Connector.onTimeout` (part_001 lines 187-190): emit `timeout` with a
`SOCKTMOUT` exception, destroy the socket.  Nothing else. -/
def Conn.onTimeout (c : Conn) : Conn :=
  Conn.destroy { c with events := c.events ++ [CEvent.timeoutEv] }

/-!  ## Connector constructor / default ports (part_001 lines 28-54)  -/

/-- The `tls` option as passed in: absent (`undefined`), a boolean, or an
object. -/
inductive TlsOpt
  | undef
  | boolVal (b : Bool)
  | objVal
deriving DecidableEq, Repr

/-- The option bag received by the `Connector` constructor.  A `port` of
`some 0` is falsy in JS and is distinguished from an absent port. -/
structure ConnOpts where
  host : List Nat
  port : Option Int
  tls : TlsOpt
  timeout : Option Int
deriving DecidableEq, Repr

/-- JS truthiness of `options.port`. -/
def portTruthy : Option Int → Bool
  | none => false
  | some p => decide (p ≠ 0)

/-- The fields of the Connector set by the constructor that matter for
connecting: `this.port` (`none` = still `undefined`) and whether
`this.tls` was set (so `connect()` takes the TLS branch). -/
structure ConnCfg where
  host : List Nat
  port : Option Int
  timeout : Option Int
  tlsSet : Bool
deriving DecidableEq, Repr

/--
`Connector.constructor` (part_001 lines 28-54):
`if (options.timeout) this.timeout = options.timeout;`
`if (options.port) this.port = options.port;`
`if (typeof options.tls === 'boolean' && options.tls) options.tls = {};`
`if (typeof options.tls === 'object') { if (!options.port) this.port = 8729; this.tls = options.tls; }`
-/
def connCtor (o : ConnOpts) : ConnCfg :=
  let t : Option Int :=
    match o.timeout with
    | some x => if x ≠ 0 then some x else none
    | none => none
  let p : Option Int := if portTruthy o.port then o.port else none
  let tls1 : TlsOpt :=
    match o.tls with
    | TlsOpt.boolVal true => TlsOpt.objVal
    | x => x
  match tls1 with
  | TlsOpt.objVal =>
      { host := o.host, timeout := t,
        port := if portTruthy o.port then p else some 8729,
        tlsSet := true }
  | _ => { host := o.host, timeout := t, port := p, tlsSet := false }

/-- The port `Connector.connect` (part_001 lines 60-94) passes to
`tls.connect(this.port, ...)` / `socket.connect(this.port, ...)`. -/
def connectPort (cfg : ConnCfg) : Option Int := cfg.port

/-!  ## RStream (src/unnamed/part_001, `RStream` class)  -/

/-- The argument delivered to `RStream.onStream`: either a reply packet
(which may carry a `.section` word) or the empty array `[]` synthesized
by the empty-data debouncer (`[]['.section']` is `undefined`). -/
inductive StreamArg
  | pkt (sectionVal : Option (List Nat)) (content : Nat)
  | emptyArr
deriving DecidableEq, Repr

/-- `packet['.section']` of a `StreamArg`. -/
def sectionOf : StreamArg → Option (List Nat)
  | StreamArg.pkt s _ => s
  | StreamArg.emptyArr => none

/-- The data argument of a consumer-callback invocation. -/
inductive CbData
  | one (a : StreamArg)
  | many (l : List StreamArg)
  | nothing
deriving DecidableEq, Repr

/-- Promise settlement of `pause`/`stop`: already resolved, already
rejected, or proceeding into the asynchronous `/cancel` round-trip. -/
inductive Settled
  | resolvedP
  | rejectedP (errno : List Nat)
  | proceeds
deriving DecidableEq, Repr

/-- The bytes of the errno string `STREAMCLOSD`. -/
def streamClosedErr : List Nat := [83, 84, 82, 69, 65, 77, 67, 76, 79, 83, 68]

/-- The bytes of the trap message `interrupted`. -/
def interruptedMsg : List Nat :=
  [105, 110, 116, 101, 114, 114, 117, 112, 116, 101, 100]

/--
The state of an `RStream`, with ghost traces: `dataEvents` records every
`this.emit('data', packet)`, `cbCalls` every consumer-callback invocation
`(error message?, data)`, `errorEvents`/`trapEvents` the `error`/`trap`
emissions, and `cancelWrites` counts the `/cancel =tag=<id>` sentences
written.  `sectionTimerArmed` models whether the 300 ms section timer is
pending.
-/
structure Strm where
  shouldDebounceEmptyData : Bool
  streaming : Bool
  pausing : Bool
  paused : Bool
  stopping : Bool
  stopped : Bool
  trapped : Bool
  forcelyStop : Bool
  hasCallback : Bool
  currentSection : Option (List Nat)
  currentSectionPacket : List StreamArg
  sectionTimerArmed : Bool
  channelClosed : Bool
  debounceCancelled : Bool
  dataEvents : List StreamArg
  cbCalls : List (Option (List Nat) × CbData)
  errorEvents : List (List Nat)
  trapEvents : List (List Nat)
  cancelWrites : Nat
deriving DecidableEq, Repr

/-- A stream as constructed and started: `streaming = true`, everything
else clear (part_001 RStream constructor). -/
def startedStrm : Strm :=
  { shouldDebounceEmptyData := false, streaming := true, pausing := false,
    paused := false, stopping := false, stopped := false, trapped := false,
    forcelyStop := false, hasCallback := true, currentSection := none,
    currentSectionPacket := [], sectionTimerArmed := false,
    channelClosed := false, debounceCancelled := false, dataEvents := [],
    cbCalls := [], errorEvents := [], trapEvents := [], cancelWrites := 0 }

/--
`RStream.onStream` (part_001 lines 419-441).  Note that it consults none
of the state flags: it emits `data` and invokes the callback whether or
not the stream is stopped.  The `.section` branch reproduces the
clear/arm of the 300 ms quiescence timer and the synchronous flush when
the section identifier changes.
-/
def onStream (s : Strm) (a : StreamArg) : Strm :=
  let s1 := { s with dataEvents := s.dataEvents ++ [a] }
  if s1.hasCallback then
    match sectionOf a with
    | some sec =>
        let s2 := { s1 with sectionTimerArmed := true }
        let s3 :=
          if s2.currentSectionPacket.length > 0 &&
              decide ((some sec : Option (List Nat)) ≠ s2.currentSection) then
            { s2 with sectionTimerArmed := false,
                      cbCalls := s2.cbCalls ++
                        [(none, CbData.many s2.currentSectionPacket)],
                      currentSectionPacket := [] }
          else s2
        { s3 with currentSection := some sec,
                  currentSectionPacket := s3.currentSectionPacket ++ [a] }
    | none =>
        { s1 with cbCalls := s1.cbCalls ++ [(none, CbData.one a)] }
  else s1

/-- The guard of the debounced empty-data closure
(part_001 lines 403-411): `!stopped || !stopping || !paused || !pausing`. -/
def debounceGuard (s : Strm) : Bool :=
  !s.stopped || !s.stopping || !s.paused || !s.pausing

/-- The debounced empty-data closure itself: when the guard passes it
calls `onStream([])` (and re-arms itself). -/
def debounceFire (s : Strm) : Strm :=
  if debounceGuard s then onStream s StreamArg.emptyArr else s

/--
`RStream.onTrap` (part_001 lines 450-465): `message === 'interrupted'`
only clears the streaming flag (pause acknowledgement); any other
message marks the stream stopped and trapped, surfaces the error through
the callback (or an `error` event when no callback is set) and emits
`trap`.
-/
def onTrap (s : Strm) (msg : List Nat) : Strm :=
  if msg = interruptedMsg then
    { s with streaming := false }
  else
    let s1 := { s with stopped := true, trapped := true }
    let s2 :=
      if s1.hasCallback then
        { s1 with cbCalls := s1.cbCalls ++ [(some msg, CbData.nothing)] }
      else
        { s1 with errorEvents := s1.errorEvents ++ [msg] }
    { s2 with trapEvents := s2.trapEvents ++ [msg] }

/--
`RStream.stop` (part_001 lines 325-360).  Terminal states return a
resolved promise immediately; a paused stream is finalized locally;
otherwise a `/cancel` is written on a fresh channel and the promise
chain proceeds asynchronously (`Settled.proceeds` — the subsequent
`.then` updates are not needed by the claims below, which are about the
early-return paths).
-/
def stopFn (s : Strm) (pausingArg : Bool) : Strm × Settled :=
  if s.stopped || s.stopping then (s, Settled.resolvedP)
  else
    let s1 := if !pausingArg then { s with forcelyStop := true } else s
    if s1.paused then
      (( { s1 with streaming := false, stopping := false, stopped := true,
                   channelClosed := true } ), Settled.resolvedP)
    else
      let s2 := if !s1.pausing then { s1 with stopping := true } else s1
      let s3 := if s2.shouldDebounceEmptyData
                then { s2 with debounceCancelled := true } else s2
      ({ s3 with cancelWrites := s3.cancelWrites + 1 }, Settled.proceeds)

/--
`RStream.pause` (part_001 lines 300-318): terminal states are rejected
with `STREAMCLOSD`; pausing/paused states resolve; a streaming stream
sets the pausing flag and delegates to `stop(true)`.
-/
def pauseFn (s : Strm) : Strm × Settled :=
  if s.stopped || s.stopping then (s, Settled.rejectedP streamClosedErr)
  else if s.pausing || s.paused then (s, Settled.resolvedP)
  else if s.streaming then stopFn { s with pausing := true } true
  else (s, Settled.resolvedP)

/-!  ## C9 — default ports  -/

/-- C9 counterexample: a configuration with no `port` and no TLS leaves
`this.port` undefined — the Connector never applies the claimed plain
default 8728, so it does not connect to port 8728. -/
theorem C9_counterexample :
    connectPort (connCtor
      { host := [104], port := none, tls := TlsOpt.undef, timeout := none }) = none ∧
    (none : Option Int) ≠ some 8728 := by
  decide

/--
C9 (amended): with TLS configured (object, or `true` which is normalized
to an object) and `port` absent, the Connector uses port 8729; with TLS
not configured (absent or `false`) and `port` absent, `this.port` is left
undefined — no 8728 default is applied by the Connector; a supplied
nonzero port is used exactly, in both modes.
-/
theorem C9_default_ports (h : List Nat) (t : Option Int) (p : Int)
    (tl : TlsOpt) (hp : p ≠ 0) :
    connectPort (connCtor ⟨h, none, TlsOpt.objVal, t⟩) = some 8729 ∧
    connectPort (connCtor ⟨h, none, TlsOpt.boolVal true, t⟩) = some 8729 ∧
    connectPort (connCtor ⟨h, none, TlsOpt.undef, t⟩) = none ∧
    connectPort (connCtor ⟨h, none, TlsOpt.boolVal false, t⟩) = none ∧
    connectPort (connCtor ⟨h, some p, tl, t⟩) = some p := by
  refine ⟨rfl, rfl, rfl, rfl, ?_⟩
  have hpt : portTruthy (some p) = true := by
    simp [portTruthy, hp]
  cases tl with
  | undef => simp [connCtor, connectPort, hpt]
  | objVal => simp [connCtor, connectPort, hpt]
  | boolVal b => cases b <;> simp [connCtor, connectPort, hpt]

/-- C9 witness: the theorem applied at port 1234 (used in both modes). -/
theorem C9_witness :
    connectPort (connCtor ⟨[104], some 1234, TlsOpt.objVal, none⟩) = some 1234 ∧
    connectPort (connCtor ⟨[104], none, TlsOpt.objVal, none⟩) = some 8729 := by
  refine ⟨(C9_default_ports [104] none 1234 TlsOpt.objVal (by decide)).2.2.2.2, ?_⟩
  exact (C9_default_ports [104] none 1234 TlsOpt.objVal (by decide)).1

/-!  ## C4 — transport error/timeout handling  -/

/-- A connected Connector with one registered tag, for the C4
counterexample. -/
def connWithTag : Conn :=
  { connected := true, connecting := false, closing := false,
    socketDestroyed := false, listenersRemoved := false,
    rcv := { initRcv with tags := [([49], 7)] }, events := [] }

/-- C4 counterexample: after `onError` (and likewise `onTimeout`) the
registered tag is still subscribed, no synthetic `!fatal` was delivered
to it (`delivered` and `fatalEmits` are untouched), and the status flags
did not transition. -/
theorem C4_counterexample :
    (Conn.onError connWithTag).rcv.tags = [([49], 7)] ∧
    (Conn.onError connWithTag).rcv.delivered = [] ∧
    (Conn.onError connWithTag).rcv.fatalEmits = 0 ∧
    (Conn.onError connWithTag).connected = true ∧
    (Conn.onTimeout connWithTag).rcv.tags = [([49], 7)] ∧
    (Conn.onTimeout connWithTag).rcv.delivered = [] := by
  decide

/--
C4 (amended): on a transport error or timeout the Connector emits the
corresponding event and destroys the socket (releasing it and removing
its own listeners); it does not unsubscribe any registered tag, delivers
no synthetic `!fatal`, and changes no status flag — open channels and
streams are not notified by the Connector.
-/
theorem C4_error_timeout (c : Conn) :
    Conn.onError c =
      { c with events := c.events ++ [CEvent.errorEv],
               socketDestroyed := true, listenersRemoved := true } ∧
    Conn.onTimeout c =
      { c with events := c.events ++ [CEvent.timeoutEv],
               socketDestroyed := true, listenersRemoved := true } :=
  ⟨rfl, rfl⟩

/-!  ## C5 — stopped-stream silence  -/

/-- An `RStream` that has completed its terminal transition to `Stopped`
(the state after `stop()` resolves: `streaming` cleared, `stopped` set,
`stopping` cleared). -/
def stoppedStrm : Strm :=
  { startedStrm with streaming := false, stopped := true }

/--
C5 failing evaluation: the guard of the empty-data debounce closure is
`!stopped || !stopping || !paused || !pausing`, which is `true` even in
the `Stopped` state, so a pending debounce timer fires `onStream([])` on a
stopped stream and a `data` event plus a consumer callback are emitted;
likewise `onStream` consults no state flag, so a late packet on the former
tag is also delivered after `stop()`.
-/
theorem C5_stopped_still_emits :
    debounceGuard stoppedStrm = true ∧
    (debounceFire stoppedStrm).dataEvents = [StreamArg.emptyArr] ∧
    (debounceFire stoppedStrm).cbCalls =
      [(none, CbData.one StreamArg.emptyArr)] ∧
    (onStream stoppedStrm (StreamArg.pkt none 5)).dataEvents =
      [StreamArg.pkt none 5] ∧
    (onStream stoppedStrm (StreamArg.pkt none 5)).cbCalls =
      [(none, CbData.one (StreamArg.pkt none 5))] := by
  decide

/-!  ## C7 — stream trap discrimination  -/

/--
C7: a trap whose message is `interrupted` is a non-error pause
acknowledgement — the only state change is clearing the `streaming` flag,
and nothing is surfaced; any other message marks the stream
stopped and trapped and, when a consumer callback is registered, invokes
it exactly once with an error carrying that message (also emitting the
`trap` event).
-/
theorem C7_trap_discrimination (s : Strm) (msg : List Nat) :
    onTrap s interruptedMsg = { s with streaming := false } ∧
    (msg ≠ interruptedMsg → s.hasCallback = true →
      onTrap s msg =
        { s with stopped := true, trapped := true,
                 cbCalls := s.cbCalls ++ [(some msg, CbData.nothing)],
                 trapEvents := s.trapEvents ++ [msg] }) := by
  constructor
  · simp [onTrap]
  · intro hm hc
    simp [onTrap, hm, hc]

/-- C7 witness: the theorem applied to a live stream and the trap message
`x` (byte 120). -/
theorem C7_witness :
    onTrap startedStrm interruptedMsg =
      { startedStrm with streaming := false } ∧
    onTrap startedStrm [120] =
      { startedStrm with stopped := true, trapped := true,
                         cbCalls := startedStrm.cbCalls ++
                           [(some [120], CbData.nothing)],
                         trapEvents := startedStrm.trapEvents ++ [[120]] } :=
  ⟨(C7_trap_discrimination startedStrm [120]).1,
   (C7_trap_discrimination startedStrm [120]).2 (by decide) rfl⟩

/-!  ## C8 — idempotence after the terminal transition  -/

/-- C8 counterexample: on a stream already in `Stopped`, `pause()` does
not complete successfully — it returns a promise rejected with
`STREAMCLOSD` (the `STREAM_CLOSED` errno). -/
theorem C8_counterexample :
    pauseFn stoppedStrm = (stoppedStrm, Settled.rejectedP streamClosedErr) ∧
    Settled.rejectedP streamClosedErr ≠ Settled.resolvedP := by
  decide

/--
C8 (amended): for a stream already in `Stopped` or `Stopping`, both
`stop()` and `pause()` return immediately with no state change and no
further `/cancel` write; `stop()` resolves (idempotent success), but
`pause()` rejects with `STREAM_CLOSED` instead of completing
successfully.
-/
theorem C8_terminal_idempotence (s : Strm)
    (h : s.stopped = true ∨ s.stopping = true) :
    stopFn s false = (s, Settled.resolvedP) ∧
    pauseFn s = (s, Settled.rejectedP streamClosedErr) := by
  have hb : (s.stopped || s.stopping) = true := by
    rcases h with h | h <;> simp [h]
  constructor
  · simp [stopFn, hb]
  · simp [pauseFn, hb]

/-- C8 witness: the theorem applied to the stopped stream. -/
theorem C8_witness :
    stopFn stoppedStrm false = (stoppedStrm, Settled.resolvedP) ∧
    pauseFn stoppedStrm = (stoppedStrm, Settled.rejectedP streamClosedErr) :=
  C8_terminal_idempotence stoppedStrm (Or.inl rfl)

/-!  ## C10 — last-writer-wins tag subscription  -/

/-- The at-most-one-subscriber-per-tag invariant: the keys of the tag map
are pairwise distinct (a JS `Map` guarantees this; here it is proved of
the model). -/
def keysNodup (m : List (List Nat × Nat)) : Prop := (m.map Prod.fst).Nodup

/-- A sequence of `Receiver.read` / `Receiver.stop` calls. -/
inductive TagOp
  | rd (t : List Nat) (cb : Nat)
  | stp (t : List Nat)
deriving DecidableEq, Repr

/-- Apply a sequence of `read`/`stop` operations to a Receiver. -/
def applyOps (st : Rcv) : List TagOp → Rcv
  | [] => st
  | TagOp.rd t cb :: rest => applyOps (st.read t cb) rest
  | TagOp.stp t :: rest => applyOps (st.stop t) rest

lemma mapSet_keys_mem (m : List (List Nat × Nat)) (k : List Nat) (v : Nat)
    (h : m.any (fun e => e.1 = k) = true) :
    (mapSet m k v).map Prod.fst = m.map Prod.fst := by
  simp only [mapSet, h, if_true, List.map_map]
  apply List.map_congr_left
  intro e _
  by_cases he : e.1 = k
  · simp [he]
  · simp [he]

lemma mapSet_keys_new (m : List (List Nat × Nat)) (k : List Nat) (v : Nat)
    (h : m.any (fun e => e.1 = k) = false) :
    (mapSet m k v).map Prod.fst = m.map Prod.fst ++ [k] := by
  simp [mapSet, h]

lemma keysNodup_mapSet (m : List (List Nat × Nat)) (k : List Nat) (v : Nat)
    (h : keysNodup m) : keysNodup (mapSet m k v) := by
  unfold keysNodup at *
  cases ha : m.any (fun e => e.1 = k) with
  | true => rw [mapSet_keys_mem m k v ha]; exact h
  | false =>
      rw [mapSet_keys_new m k v ha]
      have hk : k ∉ m.map Prod.fst := by
        intro hmem
        rcases List.mem_map.mp hmem with ⟨e, hem, hek⟩
        obtain ⟨a, b⟩ := e
        have hall : ∀ (a : List Nat) (b : Nat), (a, b) ∈ m → ¬ a = k := by
          simpa using ha
        exact hall a b hem hek
      simp [List.nodup_append, h, hk]

lemma keysNodup_filter (m : List (List Nat × Nat)) (p : List Nat × Nat → Bool)
    (h : keysNodup m) : keysNodup (m.filter p) :=
  List.Nodup.sublist ((m.filter_sublist).map Prod.fst) h

lemma mapSet_key_present (m : List (List Nat × Nat)) (k : List Nat) (v : Nat) :
    (mapSet m k v).any (fun e => e.1 = k) = true := by
  cases ha : m.any (fun e => e.1 = k) with
  | true =>
      simp only [mapSet, ha, if_true]
      rcases List.any_eq_true.mp ha with ⟨e, hem, hek⟩
      apply List.any_eq_true.mpr
      refine ⟨if e.1 = k then (k, v) else e, List.mem_map_of_mem _ hem, ?_⟩
      simp at hek
      simp [hek]
  | false =>
      simp [mapSet, ha]

lemma replace_filter (m : List (List Nat × Nat)) (k : List Nat) (c : Nat)
    (hnd : keysNodup m) (hmem : m.any (fun e => e.1 = k) = true) :
    ((m.map (fun e => if e.1 = k then (k, c) else e)).filter
      (fun e => e.1 = k)) = [(k, c)] := by
  induction m with
  | nil => simp at hmem
  | cons e tl ih =>
      unfold keysNodup at hnd
      simp only [List.map_cons, List.nodup_cons] at hnd
      by_cases he : e.1 = k
      · have htl : ∀ x ∈ tl, ¬ x.1 = k := by
          intro x hx hxk
          apply hnd.1
          rw [he, ← hxk]
          exact List.mem_map_of_mem Prod.fst hx
        have hmap : (tl.map (fun e => if e.1 = k then (k, c) else e)) = tl := by
          apply List.map_congr_left ?_ |>.trans tl.map_id
          intro x hx
          simp [htl x hx]
        simp only [List.map_cons, if_pos he, hmap]
        rw [List.filter_cons_of_pos (by simp)]
        rw [List.filter_eq_nil_iff.mpr (by intro a ha; simp [htl a ha])]
      · have hmem' : tl.any (fun e => e.1 = k) = true := by
          rcases List.any_eq_true.mp hmem with ⟨x, hx, hxk⟩
          simp at hxk
          rcases List.mem_cons.mp hx with h | h
          · exact absurd (h ▸ hxk) he
          · exact List.any_eq_true.mpr ⟨x, h, by simp [hxk]⟩
        simp only [List.map_cons, if_neg he]
        rw [List.filter_cons_of_neg (by simp [he])]
        exact ih hnd.2 hmem'

lemma keysNodup_applyOps (ops : List TagOp) :
    ∀ st : Rcv, keysNodup st.tags → keysNodup (applyOps st ops).tags := by
  induction ops with
  | nil => intro st h; exact h
  | cons op rest ih =>
      intro st h
      cases op with
      | rd t cb => exact ih _ (keysNodup_mapSet _ _ _ h)
      | stp t => exact ih _ (keysNodup_filter _ _ h)

/--
C10: tag subscription is last-writer-wins.  Registering `c1` and then
`c2` for the same tag `t` silently replaces the subscription — no error —
leaving exactly one entry for `t` in the map, holding `c2`; and the
at-most-one-subscriber-per-tag invariant (`keysNodup`) is preserved by
`read` and `stop`, hence holds after every sequence of `read`/`stop`
operations from a fresh Receiver.
-/
theorem C10_last_writer_wins (st : Rcv) (t : List Nat) (c1 c2 : Nat)
    (hnd : keysNodup st.tags) :
    (((st.read t c1).read t c2).tags.filter (fun e => e.1 = t)) = [(t, c2)] ∧
    keysNodup ((st.read t c1).tags) ∧
    (∀ u, keysNodup ((st.stop u).tags)) ∧
    (∀ ops, keysNodup ((applyOps initRcv ops).tags)) := by
  refine ⟨?_, keysNodup_mapSet _ _ _ hnd, fun u => keysNodup_filter _ _ hnd,
    fun ops => keysNodup_applyOps ops initRcv (by simp [initRcv, keysNodup])⟩
  show ((mapSet (mapSet st.tags t c1) t c2).filter (fun e => e.1 = t)) = [(t, c2)]
  have h1 : (mapSet st.tags t c1).any (fun e => e.1 = t) = true :=
    mapSet_key_present _ _ _
  have h2 : keysNodup (mapSet st.tags t c1) := keysNodup_mapSet _ _ _ hnd
  generalize hM : mapSet st.tags t c1 = M at h1 h2
  unfold mapSet
  rw [if_pos h1]
  exact replace_filter M t c2 h2 h1

/-- C10 witness: two subscriptions for tag `1` (byte 49) on a fresh
Receiver leave exactly the second callback registered. -/
theorem C10_witness :
    (((initRcv.read [49] 1).read [49] 2).tags.filter (fun e => e.1 = [49])) =
      [([49], 2)] :=
  (C10_last_writer_wins initRcv [49] 1 2 (by simp [initRcv, keysNodup])).1

/-!  ## C2 — length-codec round trip  -/

lemma toInt32_small (x : Int) (h0 : 0 ≤ x) (h1 : x < 2147483648) :
    toInt32 x = x := by
  unfold toInt32
  have hm : x % 4294967296 = x := Int.emod_eq_of_lt h0 (by omega)
  simp only [hm]
  rw [if_pos h1]

lemma jsShl8_small (x : Int) (h0 : 0 ≤ x) (h1 : x * 256 < 2147483648) :
    jsShl8 x = x * 256 := by
  unfold jsShl8
  rw [toInt32_small x h0 (by omega), toInt32_small _ (by omega) h1]

lemma decodeLength_one (b0 : Nat) (h : b0 &&& 128 = 0) :
    decodeLength [b0] = (1, some (b0 : Int)) := by
  simp [decodeLength, h]

lemma decodeLength_two (b0 b1 : Nat) (h : b0 &&& 128 ≠ 0)
    (h2 : b0 &&& 192 = 128) :
    decodeLength [b0, b1] =
      (2, some (jsShl8 ((b0 &&& 63 : Nat) : Int) + (b1 : Int))) := by
  simp [decodeLength, h, h2]

lemma decodeLength_three (b0 b1 b2 : Nat) (h : b0 &&& 128 ≠ 0)
    (h2 : ¬ b0 &&& 192 = 128) (h3 : b0 &&& 224 = 192) :
    decodeLength [b0, b1, b2] =
      (3, some (jsShl8 (jsShl8 ((b0 &&& 31 : Nat) : Int) + (b1 : Int))
            + (b2 : Int))) := by
  simp [decodeLength, h, h2, h3]

lemma decodeLength_four (b0 b1 b2 b3 : Nat) (h : b0 &&& 128 ≠ 0)
    (h2 : ¬ b0 &&& 192 = 128) (h3 : ¬ b0 &&& 224 = 192)
    (h4 : b0 &&& 240 = 224) :
    decodeLength [b0, b1, b2, b3] =
      (4, some (jsShl8 (jsShl8 (jsShl8 ((b0 &&& 15 : Nat) : Int)
            + (b1 : Int)) + (b2 : Int)) + (b3 : Int))) := by
  simp [decodeLength, h, h2, h3, h4]

lemma decodeLength_five (b0 b1 b2 b3 b4 : Nat) (h : b0 &&& 128 ≠ 0)
    (h2 : ¬ b0 &&& 192 = 128) (h3 : ¬ b0 &&& 224 = 192)
    (h4 : ¬ b0 &&& 240 = 224) :
    decodeLength [b0, b1, b2, b3, b4] =
      (5, some (jsShl8 (jsShl8 (jsShl8 ((b1 : Int)) + (b2 : Int))
            + (b3 : Int)) + (b4 : Int))) := by
  simp [decodeLength, h, h2, h3, h4]

lemma mask_one : ∀ x < 128, x &&& 128 = 0 := by decide

lemma mask_two : ∀ x < 64,
    (128 + x) &&& 128 ≠ 0 ∧ (128 + x) &&& 192 = 128 ∧
    (128 + x) &&& 63 = x := by decide

lemma mask_three : ∀ x < 32,
    (192 + x) &&& 128 ≠ 0 ∧ (192 + x) &&& 192 = 192 ∧
    (192 + x) &&& 224 = 192 ∧ (192 + x) &&& 31 = x := by decide

lemma mask_four : ∀ x < 16,
    (224 + x) &&& 128 ≠ 0 ∧ (224 + x) &&& 192 = 192 ∧
    (224 + x) &&& 224 = 224 ∧ (224 + x) &&& 240 = 224 ∧
    (224 + x) &&& 15 = x := by decide

/-- C2 counterexample: at `L = 2^31` the five-byte decode path wraps
through the 32-bit `<<` and returns `-2^31`, so the round trip
`decode_length (encode_length L) = (prefix_size L, L)` fails for this
unsigned 32-bit integer. -/
theorem C2_counterexample :
    decodeLength (encodeLength 2147483648) = (5, some (-2147483648)) ∧
    decodeLength (encodeLength 2147483648) ≠
      (5, some (2147483648 : Int)) := by
  constructor
  · decide
  · decide

/--
C2 (amended): for every `L < 2^31` — every length representable in the
spec's word data model (word lengths are `0…2^31-1`) — decoding the
shortest spec-table encoding of `L` returns exactly the pair
(number of prefix bytes of that encoding, `L`).  For `L` in
`[2^31, 2^32)` the decoder instead returns `L - 2^32` (see the
counterexample).
-/
theorem C2_length_roundtrip (L : Nat) (hL : L < 2147483648) :
    decodeLength (encodeLength L) = ((encodeLength L).length, some (L : Int)) := by
  by_cases h1 : L < 128
  · rw [encodeLength, if_pos h1]
    rw [decodeLength_one L (mask_one L h1)]
    rfl
  · by_cases h2 : L < 16384
    · rw [encodeLength, if_neg h1, if_pos h2]
      have hq : L / 256 < 64 := by omega
      obtain ⟨ma, mb, mc⟩ := mask_two (L / 256) hq
      rw [decodeLength_two _ _ ma mb, mc]
      rw [jsShl8_small ((L / 256 : Nat) : Int) (by positivity) (by push_cast; omega)]
      simp only [List.length_cons, List.length_nil, Prod.mk.injEq,
        Option.some.injEq, true_and]
      omega
    · by_cases h3 : L < 2097152
      · rw [encodeLength, if_neg h1, if_neg h2, if_pos h3]
        have hq : L / 65536 < 32 := by omega
        obtain ⟨ma, mb, mc, md⟩ := mask_three (L / 65536) hq
        rw [decodeLength_three _ _ _ ma (by omega) mc, md]
        rw [jsShl8_small ((L / 65536 : Nat) : Int) (by positivity)
          (by push_cast; omega)]
        rw [jsShl8_small (((L / 65536 : Nat) : Int) * 256 +
          ((L / 256 % 256 : Nat) : Int)) (by positivity) (by push_cast; omega)]
        simp only [List.length_cons, List.length_nil, Prod.mk.injEq,
          Option.some.injEq, true_and]
        omega
      · by_cases h4 : L < 268435456
        · rw [encodeLength, if_neg h1, if_neg h2, if_neg h3, if_pos h4]
          have hq : L / 16777216 < 16 := by omega
          obtain ⟨ma, mb, mc, md, me⟩ := mask_four (L / 16777216) hq
          rw [decodeLength_four _ _ _ _ ma (by omega) (by omega) md, me]
          rw [jsShl8_small ((L / 16777216 : Nat) : Int) (by positivity)
            (by push_cast; omega)]
          rw [jsShl8_small (((L / 16777216 : Nat) : Int) * 256 +
            ((L / 65536 % 256 : Nat) : Int)) (by positivity)
            (by push_cast; omega)]
          rw [jsShl8_small ((((L / 16777216 : Nat) : Int) * 256 +
            ((L / 65536 % 256 : Nat) : Int)) * 256 +
            ((L / 256 % 256 : Nat) : Int)) (by positivity)
            (by push_cast; omega)]
          simp only [List.length_cons, List.length_nil, Prod.mk.injEq,
            Option.some.injEq, true_and]
          omega
        · rw [encodeLength, if_neg h1, if_neg h2, if_neg h3, if_neg h4]
          rw [decodeLength_five _ _ _ _ _ (by decide) (by decide) (by decide)
            (by decide)]
          have hb1 : L / 16777216 < 128 := by omega
          rw [jsShl8_small ((L / 16777216 % 256 : Nat) : Int) (by positivity)
            (by push_cast; omega)]
          rw [jsShl8_small (((L / 16777216 % 256 : Nat) : Int) * 256 +
            ((L / 65536 % 256 : Nat) : Int)) (by positivity)
            (by push_cast; omega)]
          rw [jsShl8_small ((((L / 16777216 % 256 : Nat) : Int) * 256 +
            ((L / 65536 % 256 : Nat) : Int)) * 256 +
            ((L / 256 % 256 : Nat) : Int)) (by positivity)
            (by push_cast; omega)]
          simp only [List.length_cons, List.length_nil, Prod.mk.injEq,
            Option.some.injEq, true_and]
          omega

/-- C2 witness: the round trip at `L = 300` (the two-byte prefix
`0x81 0x2C` of scenario S2). -/
theorem C2_witness : decodeLength (encodeLength 300) = (2, some 300) :=
  C2_length_roundtrip 300 (by decide)

/-!  ## C3 — insufficient-prefix handling  -/

lemma decodeLength_fst_pos (data : List Nat) : 1 ≤ (decodeLength data).1 := by
  cases data with
  | nil => simp [decodeLength]
  | cons b tl =>
      by_cases h1 : b &&& 128 = 0 <;> by_cases h2 : b &&& 192 = 128 <;>
        by_cases h3 : b &&& 224 = 192 <;> by_cases h4 : b &&& 240 = 224 <;>
        simp [decodeLength, h1, h2, h3, h4]

lemma decodeLength_fst_le (data : List Nat) : (decodeLength data).1 ≤ 5 := by
  cases data with
  | nil => simp [decodeLength]
  | cons b tl =>
      by_cases h1 : b &&& 128 = 0 <;> by_cases h2 : b &&& 192 = 128 <;>
        by_cases h3 : b &&& 224 = 192 <;> by_cases h4 : b &&& 240 = 224 <;>
        simp [decodeLength, h1, h2, h3, h4]

/-- When the buffer is shorter than the prefix size announced by its
first byte, the decoded length is `NaN` (`none`): the source read past
the end of the buffer. -/
lemma decodeLength_snd_none (data : List Nat) (hne : data ≠ [])
    (h : data.length < (decodeLength data).1) : (decodeLength data).2 = none := by
  cases data with
  | nil => exact absurd rfl hne
  | cons b tl =>
      by_cases h1 : b &&& 128 = 0
      · simp [decodeLength, h1] at h
      · by_cases h2 : b &&& 192 = 128
        · simp only [decodeLength, List.getElem?_cons_zero] at h ⊢
          rw [if_pos h1, if_pos h2] at h ⊢
          have hlen : (b :: tl).length < 2 := h
          have htl : (b :: tl)[1]? = none :=
            List.getElem?_eq_none (Nat.lt_succ_iff.mp hlen)
          simp [htl]
        · by_cases h3 : b &&& 224 = 192
          · simp only [decodeLength, List.getElem?_cons_zero] at h ⊢
            rw [if_pos h1, if_neg h2, if_pos h3] at h ⊢
            have hlen : (b :: tl).length < 3 := h
            have htl : (b :: tl)[2]? = none :=
              List.getElem?_eq_none (Nat.lt_succ_iff.mp hlen)
            cases hx : (b :: tl)[1]? <;> simp [htl, hx]
          · by_cases h4 : b &&& 240 = 224
            · simp only [decodeLength, List.getElem?_cons_zero] at h ⊢
              rw [if_pos h1, if_neg h2, if_neg h3, if_pos h4] at h ⊢
              have hlen : (b :: tl).length < 4 := h
              have htl : (b :: tl)[3]? = none :=
                List.getElem?_eq_none (Nat.lt_succ_iff.mp hlen)
              cases hx : (b :: tl)[1]? <;> cases hy : (b :: tl)[2]? <;>
                simp [htl, hx, hy]
            · simp only [decodeLength, List.getElem?_cons_zero] at h ⊢
              rw [if_pos h1, if_neg h2, if_neg h3, if_neg h4] at h ⊢
              have hlen : (b :: tl).length < 5 := h
              have htl : (b :: tl)[4]? = none :=
                List.getElem?_eq_none (Nat.lt_succ_iff.mp hlen)
              cases hx : (b :: tl)[1]? <;> cases hy : (b :: tl)[2]? <;>
                cases hz : (b :: tl)[3]? <;> simp [htl, hx, hy, hz]

/-- The fields of the Receiver that `processSentence` never writes: the
framing state (`dataLength`, `currentLine`, `lengthDescriptorSegment`),
the push trace and the tag map. -/
def framePreserved (a b : Rcv) : Prop :=
  a.lengthDescriptorSegment = b.lengthDescriptorSegment ∧
  a.dataLength = b.dataLength ∧ a.currentLine = b.currentLine ∧
  a.pushed = b.pushed ∧ a.tags = b.tags

lemma framePreserved_refl (a : Rcv) : framePreserved a a :=
  ⟨rfl, rfl, rfl, rfl, rfl⟩

lemma framePreserved_trans (a b c : Rcv) (h1 : framePreserved a b)
    (h2 : framePreserved b c) : framePreserved a c :=
  ⟨h1.1.trans h2.1, h1.2.1.trans h2.2.1, h1.2.2.1.trans h2.2.2.1,
   h1.2.2.2.1.trans h2.2.2.2.1, h1.2.2.2.2.trans h2.2.2.2.2⟩

lemma sendTagData_frame (st : Rcv) (t : List Nat) :
    framePreserved (sendTagData st t).1 st := by
  unfold sendTagData cleanUp
  split
  · exact ⟨rfl, rfl, rfl, rfl, rfl⟩
  · exact ⟨rfl, rfl, rfl, rfl, rfl⟩

lemma processLine_frame (l : List Nat × Bool) (st : Rcv) :
    framePreserved (processLine l st).1 st := by
  unfold processLine
  split
  · exact ⟨rfl, rfl, rfl, rfl, rfl⟩
  · split
    · rcases hs : (if truthy st.currentTag
          then sendTagData st (st.currentTag.getD [])
          else (st, none)) with ⟨st2, e⟩
      have hf : framePreserved st2 st := by
        by_cases ht : truthy st.currentTag = true
        · rw [if_pos ht] at hs
          have hfr := sendTagData_frame st (st.currentTag.getD [])
          rw [hs] at hfr
          exact hfr
        · rw [if_neg ht] at hs
          cases hs
          exact framePreserved_refl st
      cases e
      · exact hf
      · exact hf
    · exact ⟨rfl, rfl, rfl, rfl, rfl⟩

lemma processEnd_frame (l : List Nat × Bool) (st : Rcv) :
    framePreserved (processEnd l st).1 st := by
  unfold processEnd
  split
  · rcases hs : sendTagData st (st.currentTag.getD []) with ⟨st3, e⟩
    have hf := sendTagData_frame st (st.currentTag.getD [])
    rw [hs] at hf
    cases e
    · exact hf
    · exact hf
  · exact ⟨rfl, rfl, rfl, rfl, rfl⟩

lemma processInner_frame (fuel : Nat) :
    ∀ st : Rcv, framePreserved (processInner fuel st).1 st := by
  induction fuel with
  | zero => intro st; exact framePreserved_refl _
  | succ fuel ih =>
      intro st
      rw [processInner]
      cases hp : st.sentencePipe with
      | nil => exact ⟨rfl, rfl, rfl, rfl, rfl⟩
      | cons line rest =>
          dsimp only
          split
          · exact ⟨rfl, rfl, rfl, rfl, rfl⟩
          · rcases hs : processLine line { st with sentencePipe := rest }
              with ⟨st2, e⟩
            have hf : framePreserved st2 st := by
              have hfr := processLine_frame line { st with sentencePipe := rest }
              rw [hs] at hfr
              exact hfr
            cases e with
            | some u => exact hf
            | none =>
                dsimp only
                split
                · exact framePreserved_trans _ _ _ (processEnd_frame line st2) hf
                · exact framePreserved_trans _ _ _ (ih st2) hf

lemma processSentence_frame (st : Rcv) :
    framePreserved (processSentence st).1 st := by
  unfold processSentence
  split
  · exact framePreserved_refl st
  · exact framePreserved_trans _ _ _
      (processInner_frame _ { st with processingSentencePipe := true })
      (framePreserved_refl _)

lemma processSentence_frame_eq (st st4 : Rcv) (e : Option Unit)
    (h : processSentence st = (st4, e)) : framePreserved st4 st := by
  have hfr := processSentence_frame st
  rw [h] at hfr
  exact hfr


/--
C3 counterexample: a partial two-byte prefix (`0x81`) arriving at the
start of a new word (`dataLength = 0`): the Receiver does *not* buffer it
(`lengthDescriptorSegment` stays unset) — the byte is consumed and
`dataLength` becomes `NaN` (`none`), so the partial prefix is lost
instead of being prepended to the next chunk.
-/
theorem C3_counterexample :
    (processRawData initRcv [129]).1.lengthDescriptorSegment = none ∧
    (processRawData initRcv [129]).1.dataLength = none := by
  decide

/--
C3 (amended): the decoder signals insufficiency by returning a `NaN`
length (`none`) — it is a pure function, mutating nothing — and the
partial-prefix buffering holds in the mid-sentence path (`dataLength > 0`):
the remainder is stored in `lengthDescriptorSegment` and the next chunk is
processed with it prepended.  (At the start of a new word, `dataLength = 0`,
the partial prefix is instead consumed and dropped — see the
counterexample.)
-/
theorem C3_short_descriptor (st : Rcv) (n : Nat) (data c : List Nat)
    (hdl : st.dataLength = some (n : Int)) (hn : 0 < n)
    (hlen : n < data.length)
    (hseg : st.lengthDescriptorSegment = none)
    (hins : (data.drop n).length < (decodeLength (data.drop n)).1) :
    (decodeLength (data.drop n)).2 = none ∧
    (processRawData st data).1.lengthDescriptorSegment = some (data.drop n) ∧
    (∀ st2 : Rcv, st2.lengthDescriptorSegment = some (data.drop n) →
      processRawData st2 c =
        processLoop ((data.drop n ++ c).length + 1)
          { st2 with lengthDescriptorSegment := none } (data.drop n ++ c)) := by
  have hrest_ne : data.drop n ≠ [] := by
    intro hcon
    have hc := congrArg List.length hcon
    simp at hc
    omega
  have hnone : (decodeLength (data.drop n)).2 = none :=
    decodeLength_snd_none _ hrest_ne hins
  refine ⟨hnone, ?_, ?_⟩
  · cases data with
    | nil => simp at hlen
    | cons b tl =>
        unfold processRawData
        rw [hseg]
        dsimp only
        simp only [List.length_cons]
        rw [processLoop]
        rw [hdl]
        dsimp only
        rw [if_pos (show (0 : Int) < (n : Int) by exact_mod_cast hn)]
        rw [if_neg (show ¬ (((b :: tl).length : Int) ≤ (n : Int)) by
          simp only [List.length_cons] at hlen
          simp
          omega)]
        simp only [Int.toNat_natCast]
        rw [if_pos hins]
        rw [if_neg (show ¬ ((decide ((decodeLength ((b :: tl).drop n)).2 = some 1)
            && decide (((b :: tl).drop n).drop
                (decodeLength ((b :: tl).drop n)).1 = [0])) = true) by
          simp [hnone])]
        split
        · rename_i st4 u heq
          exact (processSentence_frame_eq _ _ _ heq).1
        · rename_i st4 heq
          have hfr := processSentence_frame_eq _ _ _ heq
          have h0 : ((b :: tl).drop n).drop (decodeLength ((b :: tl).drop n)).1
              = [] := List.drop_eq_nil_of_le (le_of_lt hins)
          rw [h0]
          simp only [processLoop]
          exact hfr.1
  · intro st2 hseg2
    unfold processRawData
    rw [hseg2]

/-- A Receiver mid-word, expecting 2 more payload bytes. -/
def c3St : Rcv := { initRcv with dataLength := some 2 }

/-- C3 witness: the theorem applied to a chunk that completes the current
word (`'a' 'a'`) and ends with the partial prefix byte `0x81`: the
decoder reports `NaN` and the byte is buffered in
`lengthDescriptorSegment`. -/
theorem C3_witness :
    (decodeLength [129]).2 = none ∧
    (processRawData c3St [97, 97, 129]).1.lengthDescriptorSegment =
      some [129] :=
  ⟨(C3_short_descriptor c3St 2 [97, 97, 129] [] rfl (by decide) (by decide)
      rfl (by decide)).1,
   (C3_short_descriptor c3St 2 [97, 97, 129] [] rfl (by decide) (by decide)
      rfl (by decide)).2.1⟩

/-!  ## C6 — unknown-tag routing  -/

lemma processLine_unreg (l : List Nat × Bool) (st' : Rcv)
    (htag : hasLead tagMark l.1 = false)
    (hbang : decide (l.1.head? = some 33) = true)
    (htr : truthy st'.currentTag = true)
    (hunreg : st'.tags.any (fun e => e.1 = st'.currentTag.getD []) = false) :
    processLine l st' = (st', some ()) := by
  unfold processLine
  rw [htag]
  simp only [Bool.false_eq_true, if_false]
  rw [hbang]
  simp only [if_true]
  rw [if_pos htr]
  unfold sendTagData
  rw [hunreg]
  simp

/-- A Receiver state holding a collected `!re` row, a pending tag `9`
with no subscriber, and the closing `!done` in the pipe. -/
def c6St : Rcv :=
  { initRcv with
    sentencePipe := [([33, 114, 101], true), ([46, 116, 97, 103, 61, 57], true),
      ([33, 100, 111, 110, 101], false)] }

/--
C6 counterexample: a complete reply for the unregistered tag `9`.
`UNREGISTERED_TAG` is thrown (`some ()`) and the sentence is dropped
(`delivered = []`), but — contrary to the claim — the per-packet state is
*not* reset (`currentPacket` and `currentTag` keep their values: `cleanUp`
sits after the `throw` and is skipped) and `processingSentencePipe`
remains `true`, so a subsequent sentence for a *registered* tag is not
delivered either: the Receiver is left unusable.
-/
theorem C6_counterexample :
    (processSentence c6St).2 = some () ∧
    (processSentence c6St).1.currentPacket = [[33, 114, 101]] ∧
    (processSentence c6St).1.currentTag = some [57] ∧
    (processSentence c6St).1.processingSentencePipe = true ∧
    (processSentence c6St).1.delivered = [] ∧
    (processSentence { (processSentence c6St).1 with
        tags := [([50], 5)],
        sentencePipe := [([33, 100, 111, 110, 101], false)] }).1.delivered
      = [] := by
  decide

/--
C6 (amended): when a reply word arrives while `currentTag` holds a tag
with no registered subscriber, `processSentence` throws
`UNREGISTERED_TAG` and the sentence is not delivered to any subscriber
(`delivered`, `currentPacket`, `currentTag`, `currentReply` are all left
exactly as they were — in particular the per-packet state is *not*
reset, `cleanUp` being unreachable past the throw) and
`processingSentencePipe` is left `true`, so subsequent sentences are not
processed: the connection is not left usable by the Receiver.
-/
theorem C6_unregistered_tag (st : Rcv) (s : List Nat) (hm : Bool)
    (rest : List (List Nat × Bool))
    (hflag : st.processingSentencePipe = false)
    (hpipe : st.sentencePipe = (s, hm) :: rest)
    (hnf : ¬ (hm = false ∧ st.currentReply = some bangFatal))
    (htag : hasLead tagMark s = false)
    (hbang : decide (s.head? = some 33) = true)
    (htr : truthy st.currentTag = true)
    (hunreg : st.tags.any (fun e => e.1 = st.currentTag.getD []) = false) :
    processSentence st =
      ({ st with processingSentencePipe := true, sentencePipe := rest },
        some ()) := by
  unfold processSentence
  rw [if_neg (by rw [hflag]; simp)]
  rw [hpipe]
  simp only [List.length_cons]
  rw [show rest.length + 1 + 2 = rest.length + 2 + 1 by omega]
  rw [processInner]
  dsimp only
  have hcond : (!hm && decide (st.currentReply = some bangFatal)) = false := by
    cases hm with
    | false =>
        simp only [Bool.not_false, Bool.true_and, decide_eq_false_iff_not]
        intro hcon
        exact hnf ⟨rfl, hcon⟩
    | true => simp
  simp only [hcond, Bool.false_eq_true, if_false]
  rw [processLine_unreg (s, hm)
    { st with sentencePipe := rest, processingSentencePipe := true }
    htag hbang htr hunreg]

/-- A Receiver holding a collected `!re` row for the unregistered tag `9`,
with the closing `!done` line in the pipe. -/
def c6Wit : Rcv :=
  { initRcv with
    currentTag := some [57],
    currentPacket := [[33, 114, 101]],
    currentReply := some [33, 114, 101],
    sentencePipe := [([33, 100, 111, 110, 101], false)] }

/-- C6 witness: the amended theorem applied to `c6Wit` — the throw
happens, the pipe entry is consumed, and nothing else changes (no
cleanup, no delivery, flag left set). -/
theorem C6_witness :
    processSentence c6Wit =
      ({ c6Wit with processingSentencePipe := true, sentencePipe := [] },
        some ()) :=
  C6_unregistered_tag c6Wit [33, 100, 111, 110, 101] false [] rfl rfl
    (by decide) (by decide) (by decide) (by decide) (by decide)

/-!  ## C1 — segmentation-independence of the Receiver  -/

lemma decodeLength_small (b : Nat) (l : List Nat) (h : b &&& 128 = 0) :
    decodeLength (b :: l) = (1, some (b : Int)) := by
  simp [decodeLength, h]

lemma and128_eq_zero (b : Nat) (h : b ≤ 127) : b &&& 128 = 0 :=
  mask_one b (by omega)

lemma runB_nil (n : Nat) (cl : List Nat) : runB [] n cl = ([], n, cl) := rfl

lemma runB_cons_zero (b : Nat) (rest : List Nat) (cl : List Nat) :
    runB (b :: rest) 0 cl = runB rest b cl := rfl

lemma runB_cons_one (b : Nat) (rest : List Nat) (cl : List Nat) :
    runB (b :: rest) 1 cl =
      ((cl ++ [b]) :: (runB rest 0 []).1, (runB rest 0 []).2) := rfl

lemma runB_cons_big (b : Nat) (rest : List Nat) (n : Nat) (cl : List Nat)
    (h0 : ¬ n = 0) (h1 : ¬ n = 1) :
    runB (b :: rest) n cl = runB rest (n - 1) (cl ++ [b]) := by
  rw [runB, if_neg h0, if_neg h1]

lemma runB_append (a : List Nat) :
    ∀ (c : List Nat) (n : Nat) (cl : List Nat),
      runB (a ++ c) n cl =
        ((runB a n cl).1 ++ (runB c (runB a n cl).2.1 (runB a n cl).2.2).1,
          (runB c (runB a n cl).2.1 (runB a n cl).2.2).2) := by
  induction a with
  | nil => intro c n cl; simp [runB_nil]
  | cons b rest ih =>
      intro c n cl
      by_cases h0 : n = 0
      · subst h0
        rw [List.cons_append, runB_cons_zero, runB_cons_zero, ih]
      · by_cases h1 : n = 1
        · subst h1
          rw [List.cons_append, runB_cons_one, runB_cons_one, ih c 0 []]
          simp
        · rw [List.cons_append, runB_cons_big _ _ _ _ h0 h1,
            runB_cons_big _ _ _ _ h0 h1, ih]

lemma runB_take (data : List Nat) :
    ∀ (n : Nat) (cl : List Nat), data.length < n →
      runB data n cl = ([], n - data.length, cl ++ data) := by
  induction data with
  | nil => intro n cl _; simp [runB_nil]
  | cons b rest ih =>
      intro n cl h
      simp only [List.length_cons] at h
      have hn0 : ¬ n = 0 := by omega
      have hn1 : ¬ n = 1 := by omega
      rw [runB_cons_big _ _ _ _ hn0 hn1, ih (n - 1) (cl ++ [b]) (by omega)]
      simp only [Prod.mk.injEq]
      refine ⟨by simp, by simp; omega, by simp⟩

lemma runB_words (data : List Nat) :
    ∀ (n : Nat) (cl : List Nat), 0 < n → n ≤ data.length →
      runB data n cl =
        ((cl ++ data.take n) :: (runB (data.drop n) 0 []).1,
          (runB (data.drop n) 0 []).2) := by
  induction data with
  | nil => intro n cl h1 h2; simp at h2; omega
  | cons b rest ih =>
      intro n cl h1 h2
      have hn0 : ¬ n = 0 := by omega
      by_cases hn1 : n = 1
      · subst hn1
        rw [runB_cons_one]
        simp
      · rw [runB_cons_big _ _ _ _ hn0 hn1,
          ih (n - 1) (cl ++ [b]) (by omega) (by simp at h2; omega)]
        have ht : (b :: rest).take n = b :: rest.take (n - 1) := by
          cases n with
          | zero => omega
          | succ m => simp
        have hd : (b :: rest).drop n = rest.drop (n - 1) := by
          cases n with
          | zero => omega
          | succ m => simp
        rw [ht, hd]
        simp

lemma goodChunk_drop (data : List Nat) :
    ∀ n : Nat, n ≤ data.length →
      goodChunk data n = goodChunk (data.drop n) 0 := by
  induction data with
  | nil => intro n h; simp at h; subst h; rfl
  | cons b rest ih =>
      intro n h
      cases n with
      | zero => rfl
      | succ m =>
          simp only [goodChunk, List.drop_succ_cons]
          exact ih m (by simp at h; omega)

lemma goodChunk_cons_zero (b : Nat) (rest : List Nat) :
    goodChunk (b :: rest) 0 =
      (decide (b ≤ 127) && !(decide (b = 1) && decide (rest = [0])) &&
        goodChunk rest b) := rfl

lemma goodStream_cons_zero (b : Nat) (rest : List Nat) :
    goodStream (b :: rest) 0 =
      (decide (b ≤ 127) && !(decide (b = 1) && decide (rest.head? = some 0)) &&
        goodStream rest b) := rfl

lemma goodStream_cons_succ (b : Nat) (rest : List Nat) (n : Nat) :
    goodStream (b :: rest) (n + 1) = goodStream rest n := rfl

lemma goodStream_split (a : List Nat) :
    ∀ (c : List Nat) (n : Nat) (cl : List Nat),
      goodStream (a ++ c) n = true →
      goodChunk a n = true ∧ goodStream c (runB a n cl).2.1 = true := by
  induction a with
  | nil => intro c n cl h; exact ⟨rfl, by simpa [runB_nil] using h⟩
  | cons b rest ih =>
      intro c n cl h
      cases n with
      | zero =>
          rw [List.cons_append, goodStream_cons_zero] at h
          simp only [Bool.and_eq_true, decide_eq_true_eq, Bool.not_eq_true',
            Bool.and_eq_false_iff, decide_eq_false_iff_not] at h
          obtain ⟨⟨hb, hhack⟩, hgs⟩ := h
          obtain ⟨hc1, hc2⟩ := ih c b cl hgs
          refine ⟨?_, ?_⟩
          · rw [goodChunk_cons_zero]
            simp only [Bool.and_eq_true, decide_eq_true_eq, Bool.not_eq_true',
              Bool.and_eq_false_iff, decide_eq_false_iff_not]
            refine ⟨⟨hb, ?_⟩, hc1⟩
            rcases hhack with h1 | h2
            · exact Or.inl h1
            · right
              intro hrest
              exact h2 (by rw [hrest]; simp)
          · rw [runB_cons_zero]
            exact hc2
      | succ m =>
          rw [List.cons_append, goodStream_cons_succ] at h
          by_cases hm : m = 0
          · subst hm
            obtain ⟨hc1, hc2⟩ := ih c 0 [] h
            refine ⟨hc1, ?_⟩
            rw [runB_cons_one]
            exact hc2
          · obtain ⟨hc1, hc2⟩ := ih c m (cl ++ [b]) h
            refine ⟨hc1, ?_⟩
            rw [runB_cons_big _ _ _ _ (by omega) (by omega)]
            simpa using hc2

lemma goodStream_payload (p : List Nat) :
    ∀ r : List Nat, goodStream (p ++ r) p.length = goodStream r 0 := by
  induction p with
  | nil => intro r; rfl
  | cons x p2 ih =>
      intro r
      simp only [List.cons_append, List.length_cons, goodStream_cons_succ]
      exact ih r

lemma runB_payload (p r : List Nat) (cl : List Nat) (hp : 0 < p.length) :
    runB (p ++ r) p.length cl =
      ((cl ++ p) :: (runB r 0 []).1, (runB r 0 []).2) := by
  rw [runB_words (p ++ r) p.length cl hp (by simp)]
  rw [List.take_left, List.drop_left]

lemma streamOf_cons (w : List Nat) (ws : List (List Nat))
    (h : w.length ≤ 127) :
    streamOf (w :: ws) = w.length :: (w ++ streamOf ws) := by
  unfold streamOf encodeWord
  simp only [List.map_cons, List.flatten_cons, List.append_assoc]
  rw [show encodeLength w.length = [w.length] by
    rw [encodeLength, if_pos (by omega)]]
  simp

lemma goodStream_stream (ws : List (List Nat))
    (hw : ∀ w ∈ ws, 1 ≤ w.length ∧ w.length ≤ 127 ∧ w ≠ [0]) :
    goodStream (streamOf ws) 0 = true := by
  induction ws with
  | nil => rfl
  | cons w ws2 ih =>
      obtain ⟨h1, h2, h3⟩ := hw w (List.mem_cons_self w ws2)
      rw [streamOf_cons w ws2 h2, goodStream_cons_zero]
      simp only [Bool.and_eq_true, decide_eq_true_eq, Bool.not_eq_true',
        Bool.and_eq_false_iff, decide_eq_false_iff_not]
      refine ⟨⟨h2, ?_⟩, ?_⟩
      · by_cases hl : w.length = 1
        · right
          obtain ⟨x, hx⟩ := List.length_eq_one.mp hl
          intro hcon
          rw [hx] at hcon
          simp at hcon
          exact h3 (by rw [hx, hcon])
        · exact Or.inl hl
      · have hp := goodStream_payload w (streamOf ws2)
        rw [hp]
        exact ih (fun v hv => hw v (List.mem_cons_of_mem w hv))

lemma runB_stream (ws : List (List Nat))
    (hw : ∀ w ∈ ws, 1 ≤ w.length ∧ w.length ≤ 127 ∧ w ≠ [0]) :
    runB (streamOf ws) 0 [] = (ws, 0, []) := by
  induction ws with
  | nil => rfl
  | cons w ws2 ih =>
      obtain ⟨h1, h2, _⟩ := hw w (List.mem_cons_self w ws2)
      rw [streamOf_cons w ws2 h2, runB_cons_zero,
        runB_payload w (streamOf ws2) [] h1,
        ih (fun v hv => hw v (List.mem_cons_of_mem w hv))]
      simp

/-- No entry of the sentence pipe is a `.tag=` word. -/
def noTagPipe (st : Rcv) : Prop :=
  ∀ e ∈ st.sentencePipe, hasLead tagMark e.1 = false

lemma processLine_safe (l : List Nat × Bool) (st' : Rcv)
    (htag : hasLead tagMark l.1 = false)
    (htr : truthy st'.currentTag = false) :
    ∃ st2 : Rcv, processLine l st' = (st2, none) ∧
      st2.currentTag = st'.currentTag ∧
      st2.sentencePipe = st'.sentencePipe := by
  unfold processLine
  rw [htag]
  simp only [Bool.false_eq_true, if_false]
  split
  · rw [if_neg (by rw [htr]; simp)]
    exact ⟨_, rfl, rfl, rfl⟩
  · exact ⟨_, rfl, rfl, rfl⟩

lemma processInner_safe (fuel : Nat) :
    ∀ st : Rcv, truthy st.currentTag = false → noTagPipe st →
      (processInner fuel st).2 = none ∧
      truthy (processInner fuel st).1.currentTag = false ∧
      noTagPipe (processInner fuel st).1 := by
  induction fuel with
  | zero => intro st h1 h2; exact ⟨rfl, h1, h2⟩
  | succ fuel ih =>
      intro st h1 h2
      rw [processInner]
      cases hp : st.sentencePipe with
      | nil => exact ⟨rfl, h1, by intro e he; simp at he⟩
      | cons line rest =>
          have hrest : ∀ e ∈ rest, hasLead tagMark e.1 = false := fun e he =>
            h2 e (by rw [hp]; exact List.mem_cons_of_mem _ he)
          have hline : hasLead tagMark line.1 = false :=
            h2 line (by rw [hp]; exact List.mem_cons_self _ _)
          dsimp only
          split
          · exact ⟨rfl, h1, fun e he => hrest e he⟩
          · obtain ⟨st2, heq, htag2, hpipe2⟩ :=
              processLine_safe line { st with sentencePipe := rest } hline h1
            rw [heq]
            dsimp only
            have htr2 : truthy st2.currentTag = false := by
              rw [htag2]
              exact h1
            split
            · unfold processEnd
              rw [if_neg (by rw [htr2]; simp)]
              refine ⟨rfl, htr2, ?_⟩
              intro e he
              rw [show ({ st2 with processingSentencePipe := false } :
                Rcv).sentencePipe = st2.sentencePipe from rfl, hpipe2] at he
              exact hrest e he
            · exact ih st2 htr2 (by
                intro e he
                rw [hpipe2] at he
                exact hrest e he)

lemma processSentence_safe (st : Rcv) (h1 : truthy st.currentTag = false)
    (h2 : noTagPipe st) :
    (processSentence st).2 = none ∧
    truthy (processSentence st).1.currentTag = false ∧
    noTagPipe (processSentence st).1 := by
  unfold processSentence
  split
  · exact ⟨rfl, h1, h2⟩
  · exact processInner_safe _ _ h1 h2

/-- All facts about `processSentence st = (st4, e)` under the
no-tag-word invariant: no exception, framing fields and push trace
untouched, falsy `currentTag` and the pipe invariant preserved. -/
lemma processSentence_full (st st4 : Rcv) (e : Option Unit)
    (h : processSentence st = (st4, e))
    (h1 : truthy st.currentTag = false) (h2 : noTagPipe st) :
    e = none ∧ framePreserved st4 st ∧ truthy st4.currentTag = false ∧
      noTagPipe st4 := by
  have hs := processSentence_safe st h1 h2
  have hf := processSentence_frame st
  rw [h] at hs hf
  exact ⟨hs.1, hf, hs.2.1, hs.2.2⟩

/--
Simulation: on a hack-free chunk (`goodChunk`), the source's chunked
`while` loop behaves exactly like the byte-at-a-time reference machine
`runB`: no exception, the framing state afterwards is the machine state,
and the words pushed to the sentence pipe are the machine's completed
words.
-/
lemma processLoop_sim (fuel : Nat) :
    ∀ (data : List Nat) (st : Rcv) (n : Nat),
      data.length < fuel →
      st.dataLength = some (n : Int) →
      st.lengthDescriptorSegment = none →
      goodChunk data n = true →
      (∀ w ∈ (runB data n st.currentLine).1, hasLead tagMark w = false) →
      truthy st.currentTag = false →
      noTagPipe st →
      (processLoop fuel st data).2 = none ∧
      (processLoop fuel st data).1.dataLength =
        some (((runB data n st.currentLine).2.1 : Nat) : Int) ∧
      (processLoop fuel st data).1.currentLine =
        (runB data n st.currentLine).2.2 ∧
      (processLoop fuel st data).1.lengthDescriptorSegment = none ∧
      (processLoop fuel st data).1.pushed.map Prod.fst =
        st.pushed.map Prod.fst ++ (runB data n st.currentLine).1 ∧
      truthy (processLoop fuel st data).1.currentTag = false ∧
      noTagPipe (processLoop fuel st data).1 := by
  induction fuel with
  | zero => intro data st n hf; exact (Nat.not_lt_zero _ hf).elim
  | succ fuel ih =>
      intro data st n hf hdl hseg hgc hwords htr hpipe
      cases data with
      | nil =>
          exact ⟨rfl, hdl, rfl, hseg, (List.append_nil _).symm, htr, hpipe⟩
      | cons b tl =>
          rw [processLoop, hdl]
          dsimp only
          by_cases hn0 : 0 < n
          · rw [if_pos (show (0 : Int) < (n : Int) by exact_mod_cast hn0)]
            by_cases hle : (b :: tl).length ≤ n
            · rw [if_pos (show ((b :: tl).length : Int) ≤ (n : Int) by
                exact_mod_cast hle)]
              by_cases hexact : n = (b :: tl).length
              · -- the chunk completes the current word exactly
                have hd0 : (n : Int) - (b :: tl).length = 0 := by
                  rw [hexact]; ring
                rw [if_pos hd0]
                have hrB : runB (b :: tl) n st.currentLine =
                    ([st.currentLine ++ (b :: tl)], 0, []) := by
                  rw [runB_words (b :: tl) n st.currentLine hn0
                    (le_of_eq hexact), hexact, List.take_length,
                    List.drop_length]
                  rfl
                have hw1 : hasLead tagMark (st.currentLine ++ (b :: tl)) =
                    false := by
                  apply hwords
                  rw [hrB]
                  exact List.mem_singleton.mpr rfl
                split
                · rename_i st3 u heq
                  have hfull := processSentence_full _ _ _ heq htr (by
                    intro e he
                    simp only [List.mem_append] at he
                    rcases he with he | he
                    · exact hpipe e he
                    · simp only [List.mem_singleton] at he
                      rw [he]
                      exact hw1)
                  exact absurd hfull.1 (by simp)
                · rename_i st3 heq
                  have hfull := processSentence_full _ _ _ heq htr (by
                    intro e he
                    simp only [List.mem_append] at he
                    rcases he with he | he
                    · exact hpipe e he
                    · simp only [List.mem_singleton] at he
                      rw [he]
                      exact hw1)
                  obtain ⟨-, hfr, htr3, hpipe3⟩ := hfull
                  rw [hrB]
                  refine ⟨rfl, ?_, rfl, ?_, ?_, htr3, hpipe3⟩
                  · show st3.dataLength = some ((0 : Nat) : Int)
                    rw [hfr.2.1]
                    show some ((n : Int) - (b :: tl).length) = _
                    rw [hd0]
                    rfl
                  · show st3.lengthDescriptorSegment = none
                    rw [hfr.1]
                    exact hseg
                  · show st3.pushed.map Prod.fst = _
                    rw [hfr.2.2.2.1]
                    simp
              · -- the chunk is absorbed into the current word
                have hd0 : ¬ ((n : Int) - (b :: tl).length = 0) := by
                  intro hcon
                  apply hexact
                  have hcast : (n : Int) = (b :: tl).length := by omega
                  exact_mod_cast hcast
                rw [if_neg hd0]
                have hlt : (b :: tl).length < n := by
                  omega
                have hrB := runB_take (b :: tl) n st.currentLine hlt
                rw [hrB]
                refine ⟨rfl, ?_, rfl, hseg, by simp, htr, hpipe⟩
                show some ((n : Int) - (b :: tl).length) =
                  some (((n - (b :: tl).length : Nat)) : Int)
                congr 1
                omega
            · -- the chunk holds the rest of the word and more
              rw [if_neg (show ¬ (((b :: tl).length : Int) ≤ (n : Int)) by
                exact_mod_cast hle)]
              have hlt : n < (b :: tl).length := by omega
              simp only [Int.toNat_natCast]
              obtain ⟨r0, rtl, hrest⟩ :
                  ∃ r0 rtl, (b :: tl).drop n = r0 :: rtl := by
                rcases hdd : (b :: tl).drop n with _ | ⟨x, y⟩
                · exfalso
                  have hc := congrArg List.length hdd
                  rw [List.length_drop] at hc
                  simp only [List.length_nil] at hc
                  omega
                · exact ⟨x, y, rfl⟩
              have hgc2 : goodChunk (r0 :: rtl) 0 = true := by
                rw [← hrest, ← goodChunk_drop (b :: tl) n (by omega)]
                exact hgc
              rw [goodChunk_cons_zero] at hgc2
              simp only [Bool.and_eq_true, decide_eq_true_eq,
                Bool.not_eq_true', Bool.and_eq_false_iff,
                decide_eq_false_iff_not] at hgc2
              obtain ⟨⟨hr0, hhack⟩, hgcr⟩ := hgc2
              have hdec : decodeLength ((b :: tl).drop n) =
                  (1, some (r0 : Int)) := by
                rw [hrest]
                exact decodeLength_small r0 rtl (and128_eq_zero r0 hr0)
              have hrB : runB (b :: tl) n st.currentLine =
                  ((st.currentLine ++ (b :: tl).take n) ::
                    (runB rtl r0 []).1, (runB rtl r0 []).2) := by
                rw [runB_words (b :: tl) n st.currentLine hn0 (by omega),
                  hrest, runB_cons_zero]
              simp only [hdec]
              rw [if_neg (show ¬ (((b :: tl).drop n).length < 1) by
                rw [hrest]; simp)]
              have hr2 : List.drop 1 ((b :: tl).drop n) = rtl := by
                rw [hrest]
                rfl
              rw [hr2]
              rw [if_neg (show ¬ ((decide ((some (r0 : Int)) = some 1) &&
                  decide (rtl = [0])) = true) by
                simp only [Bool.and_eq_true, decide_eq_true_eq,
                  Option.some.injEq]
                intro hcon
                have hr01 : r0 = 1 := by exact_mod_cast hcon.1
                rcases hhack with hx | hx
                · exact hx hr01
                · exact hx hcon.2)]
              have hw1 : hasLead tagMark
                  (st.currentLine ++ (b :: tl).take n) = false := by
                apply hwords
                rw [hrB]
                exact List.mem_cons_self _ _
              split
              · rename_i st3 u heq
                have hfull := processSentence_full _ _ _ heq htr (by
                  intro e he
                  simp only [List.mem_append] at he
                  rcases he with he | he
                  · exact hpipe e he
                  · simp only [List.mem_singleton] at he
                    rw [he]
                    exact hw1)
                exact absurd hfull.1 (by simp)
              · rename_i st3 heq
                have hfull := processSentence_full _ _ _ heq htr (by
                  intro e he
                  simp only [List.mem_append] at he
                  rcases he with he | he
                  · exact hpipe e he
                  · simp only [List.mem_singleton] at he
                    rw [he]
                    exact hw1)
                obtain ⟨-, hfr, htr3, hpipe3⟩ := hfull
                have hlrtl : rtl.length < fuel := by
                  have hc := congrArg List.length hrest
                  simp at hc
                  simp only [List.length_cons] at hf
                  omega
                have hih := ih rtl st3 r0 hlrtl
                  (by rw [hfr.2.1])
                  (by rw [hfr.1]; exact hseg)
                  hgcr
                  (by
                    rw [hfr.2.2.1]
                    show ∀ w ∈ (runB rtl r0 []).1, _
                    intro w hw
                    apply hwords
                    rw [hrB]
                    exact List.mem_cons_of_mem _ hw)
                  htr3 hpipe3
                rw [hrB]
                rw [hfr.2.2.1] at hih
                refine ⟨hih.1, hih.2.1, hih.2.2.1, hih.2.2.2.1, ?_,
                  hih.2.2.2.2.2.1, hih.2.2.2.2.2.2⟩
                rw [hih.2.2.2.2.1, hfr.2.2.2.1]
                simp
          · -- dataLength = 0: decode a fresh length prefix
            have hn : n = 0 := by omega
            subst hn
            rw [if_neg (by simp)]
            rw [goodChunk_cons_zero] at hgc
            simp only [Bool.and_eq_true, decide_eq_true_eq,
              Bool.not_eq_true', Bool.and_eq_false_iff,
              decide_eq_false_iff_not] at hgc
            obtain ⟨⟨hb, hhack⟩, hgcr⟩ := hgc
            rw [decodeLength_small b tl (and128_eq_zero b hb)]
            dsimp only
            rw [show (b :: tl).drop 1 = tl from rfl]
            rw [if_neg (show ¬ ((decide ((some (b : Int)) = some 1) &&
                decide (tl = [0])) = true) by
              simp only [Bool.and_eq_true, decide_eq_true_eq,
                Option.some.injEq]
              intro hcon
              have hb1 : b = 1 := by exact_mod_cast hcon.1
              rcases hhack with hx | hx
              · exact hx hb1
              · exact hx hcon.2)]
            have hih := ih tl { st with dataLength := some (b : Int) } b
              (by simp only [List.length_cons] at hf; omega) rfl hseg hgcr
              (by
                show ∀ w ∈ (runB tl b st.currentLine).1, _
                intro w hw
                apply hwords
                rw [runB_cons_zero]
                exact hw)
              htr hpipe
            rw [runB_cons_zero]
            exact hih

/--
Chunk-sequence simulation: feeding any sequence of chunks whose
concatenation is a well-formed stream (`goodStream`) runs the reference
machine on the concatenation — the chunk boundaries are invisible.
-/
lemma feed_sim :
    ∀ (chunks : List (List Nat)) (st : Rcv) (n : Nat),
      st.dataLength = some (n : Int) →
      st.lengthDescriptorSegment = none →
      goodStream chunks.flatten n = true →
      (∀ w ∈ (runB chunks.flatten n st.currentLine).1,
        hasLead tagMark w = false) →
      truthy st.currentTag = false →
      noTagPipe st →
      (feed st chunks).2 = none ∧
      (feed st chunks).1.dataLength =
        some (((runB chunks.flatten n st.currentLine).2.1 : Nat) : Int) ∧
      (feed st chunks).1.currentLine =
        (runB chunks.flatten n st.currentLine).2.2 ∧
      (feed st chunks).1.lengthDescriptorSegment = none ∧
      (feed st chunks).1.pushed.map Prod.fst =
        st.pushed.map Prod.fst ++ (runB chunks.flatten n st.currentLine).1 ∧
      truthy (feed st chunks).1.currentTag = false ∧
      noTagPipe (feed st chunks).1 := by
  intro chunks
  induction chunks with
  | nil =>
      intro st n hdl hseg hgs hwords htr hpipe
      exact ⟨rfl, hdl, rfl, hseg, (List.append_nil _).symm, htr, hpipe⟩
  | cons c cs ih =>
      intro st n hdl hseg hgs hwords htr hpipe
      simp only [List.flatten_cons] at hgs hwords ⊢
      obtain ⟨hgc1, hgs2⟩ := goodStream_split c cs.flatten n st.currentLine hgs
      have hra := runB_append c cs.flatten n st.currentLine
      have hra1 : (runB (c ++ cs.flatten) n st.currentLine).1 =
          (runB c n st.currentLine).1 ++
          (runB cs.flatten (runB c n st.currentLine).2.1
            (runB c n st.currentLine).2.2).1 := by
        rw [hra]
      have hra2 : (runB (c ++ cs.flatten) n st.currentLine).2 =
          (runB cs.flatten (runB c n st.currentLine).2.1
            (runB c n st.currentLine).2.2).2 := by
        rw [hra]
      have hw1 : ∀ w ∈ (runB c n st.currentLine).1,
          hasLead tagMark w = false := by
        intro w hw
        apply hwords
        rw [hra1]
        exact List.mem_append_left _ hw
      have hsim := processLoop_sim (c.length + 1) c st n
        (Nat.lt_succ_self _) hdl hseg hgc1 hw1 htr hpipe
      rcases hPL : processLoop (c.length + 1) st c with ⟨st1, e⟩
      rw [hPL] at hsim
      obtain ⟨he, hdl1, hcl1, hseg1, hpush1, htr1, hpipe1⟩ := hsim
      dsimp only at he hdl1 hcl1 hseg1 hpush1 htr1 hpipe1
      subst he
      have hpr : processRawData st c = (st1, none) := by
        unfold processRawData
        rw [hseg]
        exact hPL
      have hfeed : feed st (c :: cs) = feed st1 cs := by
        rw [feed, hpr]
      rw [hfeed]
      have hih := ih st1 ((runB c n st.currentLine).2.1) hdl1 hseg1 hgs2
        (by
          rw [hcl1]
          intro w hw
          apply hwords
          rw [hra1]
          exact List.mem_append_right _ hw)
        htr1 hpipe1
      rw [hcl1] at hih
      refine ⟨hih.1, ?_, ?_, hih.2.2.2.1, ?_, hih.2.2.2.2.2.1,
        hih.2.2.2.2.2.2⟩
      · rw [hra2]
        exact hih.2.1
      · rw [hra2]
        exact hih.2.2.1
      · rw [hra1, hih.2.2.2.2.1, hpush1]
        rw [List.append_assoc]

/--
C1 counterexample: the claim quantifies over every list of non-empty
words, but for the sentence whose single word is the byte `0x00` the
stream is `0x01 0x00 0x00`, and splitting it as `[0x01 0x00] [0x00]`
triggers the source's singleton-`0x00` special case: the word is
silently dropped, while feeding the same bytes as one chunk delivers
it.  Two segmentations of the same stream deliver different sentences.
-/
theorem C1_counterexample :
    ([[1, 0], [0]] : List (List Nat)).flatten = streamOf [[0]] ∧
    ([[1, 0, 0]] : List (List Nat)).flatten = streamOf [[0]] ∧
    (feed initRcv [[1, 0, 0]]).1.pushed.map Prod.fst = [[0]] ∧
    (feed initRcv [[1, 0], [0]]).1.pushed.map Prod.fst = [] := by
  decide

/--
C1 (amended): segmentation-independence of the Receiver holds for every
sentence whose words have 1 to 127 payload bytes, are not the single
byte `0x00` (the source's null-buffer special case), and do not start
with `.tag=` (which would be consumed into `currentTag` instead of the
sentence): feeding the encoded stream in any segmentation whatsoever
throws no exception and pushes exactly the words `ws` to the sentence
pipe, leaving the framing state back at rest.
-/
theorem C1_segmentation (ws : List (List Nat)) (chunks : List (List Nat))
    (hw : ∀ w ∈ ws, 1 ≤ w.length ∧ w.length ≤ 127 ∧ w ≠ [0] ∧
      hasLead tagMark w = false)
    (hc : chunks.flatten = streamOf ws) :
    (feed initRcv chunks).2 = none ∧
    (feed initRcv chunks).1.pushed.map Prod.fst = ws ∧
    (feed initRcv chunks).1.dataLength = some 0 ∧
    (feed initRcv chunks).1.currentLine = [] := by
  have hw3 : ∀ w ∈ ws, 1 ≤ w.length ∧ w.length ≤ 127 ∧ w ≠ [0] :=
    fun w h => ⟨(hw w h).1, (hw w h).2.1, (hw w h).2.2.1⟩
  have hrs : runB (streamOf ws) 0 [] = (ws, 0, []) := runB_stream ws hw3
  have hsim := feed_sim chunks initRcv 0 rfl rfl
    (by rw [hc]; exact goodStream_stream ws hw3)
    (by
      rw [hc]
      rw [show initRcv.currentLine = ([] : List Nat) from rfl, hrs]
      intro w hmem
      exact (hw w hmem).2.2.2)
    rfl
    (by intro e he; exact absurd he (List.not_mem_nil e))
  rw [hc] at hsim
  rw [show initRcv.currentLine = ([] : List Nat) from rfl, hrs] at hsim
  refine ⟨hsim.1, ?_, ?_, hsim.2.2.1⟩
  · rw [hsim.2.2.2.2.1]
    rfl
  · rw [hsim.2.1]
    rfl

/-- C1 witness: scenario S1 — `/login` encoded as
`0x06 '/' 'l' 'o' 'g' 'i' 'n' 0x00` and fed one byte at a time delivers
exactly the sentence `["/login"]`. -/
theorem C1_witness :
    (∀ w ∈ [[47, 108, 111, 103, 105, 110]], 1 ≤ w.length ∧
      w.length ≤ 127 ∧ w ≠ [0] ∧ hasLead tagMark w = false) ∧
    ([[6], [47], [108], [111], [103], [105], [110], [0]] :
      List (List Nat)).flatten = streamOf [[47, 108, 111, 103, 105, 110]] ∧
    (feed initRcv [[6], [47], [108], [111], [103], [105], [110], [0]]).2 =
      none ∧
    (feed initRcv
      [[6], [47], [108], [111], [103], [105], [110], [0]]).1.pushed.map
        Prod.fst = [[47, 108, 111, 103, 105, 110]] := by
  refine ⟨by decide, by decide, ?_, ?_⟩
  · exact (C1_segmentation [[47, 108, 111, 103, 105, 110]]
      [[6], [47], [108], [111], [103], [105], [110], [0]]
      (by decide) (by decide)).1
  · exact (C1_segmentation [[47, 108, 111, 103, 105, 110]]
      [[6], [47], [108], [111], [103], [105], [110], [0]]
      (by decide) (by decide)).2.1
